import Mathlib

/-!
Verification of the Conversation & Emotion State Engine of the
conversational-emotion-ai repository.

The Python modules `src/emotion_analyzer.py`, `src/conversation_manager.py`,
`src/response_generator.py`, `src/utils.py` and `app.py` are shallowly
embedded below.  Python dictionaries (which preserve insertion order and
have unique keys) are modelled as association lists `List (String × ℚ)`,
Python floats as rationals, fallible code as `Except`.
-/

namespace EmotionAI

/-! ## Association-list model of Python dicts -/

/-- Lookup of a key in an insertion-ordered dict, with default `d`
(Python `dct.get(k, d)`). -/
def dictGetD (a : List (String × ℚ)) (k : String) (d : ℚ) : ℚ :=
  match a.find? (fun p => p.1 = k) with
  | some p => p.2
  | none => d

/-- Python `dct[k] = dct.get(k, 0) + v`: updates the entry in place when the
key is present, otherwise appends the new key at the end (insertion order). -/
def dictAdd : List (String × ℚ) → String → ℚ → List (String × ℚ)
  | [], k, v => [(k, 0 + v)]
  | (k', v') :: rest, k, v =>
      if k' = k then (k', v' + v) :: rest else (k', v') :: dictAdd rest k v

/-- Python `dct[k] = v`: overwriting assignment, in place when the key is
present, appended otherwise. -/
def dictSet : List (String × ℚ) → String → ℚ → List (String × ℚ)
  | [], k, v => [(k, v)]
  | (k', v') :: rest, k, v =>
      if k' = k then (k', v) :: rest else (k', v') :: dictSet rest k v

/-- The keys of a dict, in insertion order. -/
def dictKeys (a : List (String × ℚ)) : List String := a.map Prod.fst

/-! ## EmotionResult (`src/emotion_analyzer.py`, dataclass `EmotionResult`) -/

/-- The `EmotionResult` dataclass: emotion scores, the dominant emotion, its
confidence, creation time and source text. -/
structure EmotionResult where
  emotions : List (String × ℚ)
  dominant_emotion : String
  confidence : ℚ
  timestamp : Nat
  text : String
  deriving Repr, DecidableEq

/-! ## Response strategies (`src/response_generator.py`) -/

/-- One entry of the strategy table: matching threshold, trigger emotions and
the behavioural approach tag. -/
structure StrategyConfig where
  threshold : ℚ
  emotions : List String
  approach : String
  deriving Repr, DecidableEq

/-- `EmotionAwareResponseGenerator._default_strategies`: the in-source strategy
table, in Python-dict insertion order, used whenever
`config/emotions_config.yaml` is absent (the repository ships no such file). -/
def defaultStrategies : List (String × StrategyConfig) :=
  [("high_positive",
     ⟨7/10, ["joy", "excitement", "amusement", "enthusiasm"], "amplify_positive"⟩),
   ("moderate_positive",
     ⟨4/10, ["contentment", "interest", "satisfaction"], "gentle_encouragement"⟩),
   ("negative",
     ⟨3/10, ["sadness", "anger", "fear", "disappointment", "shame"], "empathetic_support"⟩),
   ("neutral",
     ⟨2/10, ["doubt", "tiredness"], "balanced_engagement"⟩)]

/-- `EmotionAwareResponseGenerator._determine_response_strategy`: iterates the
strategy dict in insertion order and returns the NAME of the first entry whose
emotion list contains the dominant emotion and whose threshold is met;
`"balanced_engagement"` when none matches. -/
def determineResponseStrategy (strategies : List (String × StrategyConfig))
    (emotionResult : EmotionResult) : String :=
  match strategies.find? (fun p =>
      emotionResult.dominant_emotion ∈ p.2.emotions ∧
      p.2.threshold ≤ emotionResult.confidence) with
  | some p => p.1
  | none => "balanced_engagement"

/-- `EmotionAwareResponseGenerator._get_temperature_for_strategy`: the
temperature map keyed by APPROACH tags, defaulting to 0.7. -/
def getTemperatureForStrategy (strategy : String) : ℚ :=
  dictGetD
    [("amplify_positive", 8/10), ("gentle_encouragement", 6/10),
     ("empathetic_support", 4/10), ("balanced_engagement", 7/10)]
    strategy (7/10)

/-! ## EmotionHistory (`src/emotion_analyzer.py`, class `EmotionHistory`) -/

/-- Python slice `l[-n:]`: the last `n` elements (all of them when
`l` is shorter). -/
def lastN (n : Nat) (l : List EmotionResult) : List EmotionResult :=
  l.drop (l.length - n)

/-- The `EmotionHistory` class: a capacity and the stored records,
most-recent-last. -/
structure EmotionHistory where
  max_history : Nat
  history : List EmotionResult

/-- `EmotionHistory.add_emotion`: append, then pop the single oldest record
when the length exceeds `max_history`. -/
def addEmotion (h : EmotionHistory) (r : EmotionResult) : EmotionHistory :=
  let appended := h.history ++ [r]
  if h.max_history < appended.length then { h with history := appended.drop 1 }
  else { h with history := appended }

/-- `EmotionHistory.get_emotion_trend`: empty mapping on an empty history,
otherwise the per-label mean over the last 5 records, accumulated with
`emotion_sums[emotion] = emotion_sums.get(emotion, 0) + score`. -/
def getEmotionTrend (h : EmotionHistory) : List (String × ℚ) :=
  if h.history.isEmpty then []
  else
    let recent := lastN 5 h.history
    let sums := recent.foldl
      (fun acc r => r.emotions.foldl (fun a p => dictAdd a p.1 p.2) acc) []
    sums.map (fun p => (p.1, p.2 / (recent.length : ℚ)))

/-- `EmotionHistory.get_dominant_emotion_sequence`: the dominant emotion of
each record, oldest first. -/
def getDominantEmotionSequence (h : EmotionHistory) : List String :=
  h.history.map (fun r => r.dominant_emotion)

/-- Folding `add_emotion` never changes the capacity. -/
theorem foldl_addEmotion_max_history (cap : Nat) (l : List EmotionResult)
    (rs : List EmotionResult) :
    (rs.foldl addEmotion ⟨cap, l⟩).max_history = cap := by
  induction rs generalizing l with
  | nil => rfl
  | cons r rs ih =>
      simp only [List.foldl_cons]
      have : addEmotion ⟨cap, l⟩ r =
          ⟨cap, (addEmotion ⟨cap, l⟩ r).history⟩ := by
        simp [addEmotion]
        split <;> rfl
      rw [this]
      exact ih _

/-- A fresh key is appended at the end by `dictAdd`. -/
theorem dictAdd_fresh (a : List (String × ℚ)) (k : String) (v : ℚ)
    (hk : k ∉ dictKeys a) : dictAdd a k v = a ++ [(k, 0 + v)] := by
  induction a with
  | nil => rfl
  | cons p rest ih =>
      obtain ⟨k', v'⟩ := p
      simp only [dictKeys, List.map_cons, List.mem_cons, not_or] at hk
      have hne : k' ≠ k := fun h => hk.1 h.symm
      simp only [dictAdd, if_neg hne, List.cons_append, List.cons.injEq, true_and]
      exact ih hk.2

/-- Accumulating a dict with pairwise-fresh distinct keys appends them all
in order. -/
theorem foldl_dictAdd_fresh (items : List (String × ℚ)) :
    ∀ acc : List (String × ℚ),
    (∀ k ∈ dictKeys items, k ∉ dictKeys acc) → (dictKeys items).Nodup →
    items.foldl (fun a p => dictAdd a p.1 p.2) acc
      = acc ++ items.map (fun p => (p.1, 0 + p.2)) := by
  induction items with
  | nil => intro acc _ _; simp
  | cons p rest ih =>
      intro acc hd hn
      simp only [dictKeys, List.map_cons, List.nodup_cons] at hn
      have hp : p.1 ∉ dictKeys acc := hd p.1 (by simp [dictKeys])
      simp only [List.foldl_cons, dictAdd_fresh acc p.1 p.2 hp]
      rw [ih (acc ++ [(p.1, 0 + p.2)]) ?_ hn.2]
      · simp
      · intro k hk
        simp only [dictKeys, List.map_append] at hk ⊢
        simp only [List.mem_append, List.map_cons, List.map_nil,
          List.mem_singleton, not_or]
        refine ⟨hd k (by simp [dictKeys, hk]), ?_⟩
        intro hkp
        exact hn.1 (hkp ▸ hk)

/-- A record with only a distinguishing timestamp, for concrete window
scenarios. -/
def sampleRecordW (n : Nat) : EmotionResult := ⟨[], "joy", 0, n, "w"⟩

/-- C2: for every capacity `cap ≥ 1` and every insertion sequence, the stored
history is exactly the last `min cap (number inserted)` records in insertion
order — in particular its length never exceeds the capacity — and this holds
after every call since the sequence is arbitrary. -/
theorem c2_add_emotion_sliding_window (cap : Nat) (hcap : 1 ≤ cap)
    (rs : List EmotionResult) :
    (rs.foldl addEmotion ⟨cap, []⟩).history = lastN cap rs ∧
    (rs.foldl addEmotion ⟨cap, []⟩).history.length = min cap rs.length ∧
    (rs.foldl addEmotion ⟨cap, []⟩).history.length ≤ cap := by
  have key : ∀ rs : List EmotionResult,
      (rs.foldl addEmotion ⟨cap, []⟩).history = lastN cap rs := by
    intro rs
    induction rs using List.reverseRecOn with
    | nil => simp [lastN]
    | append_singleton rs r ih =>
        rw [List.foldl_append, List.foldl_cons, List.foldl_nil]
        have hmax := foldl_addEmotion_max_history cap [] rs
        have hstate : rs.foldl addEmotion ⟨cap, []⟩ =
            ⟨cap, lastN cap rs⟩ := by
          cases h : rs.foldl addEmotion ⟨cap, []⟩ with
          | mk m l =>
              have h1 : m = cap := by rw [← hmax, h]
              have h2 : l = lastN cap rs := by rw [← ih, h]
              rw [h1, h2]
        rw [hstate]
        have hllen : (lastN cap rs).length = rs.length - (rs.length - cap) := by
          simp [lastN]
        simp only [addEmotion]
        split
        · rename_i hgt
          rw [List.length_append, hllen] at hgt
          have hge : cap ≤ rs.length := by
            by_contra hc; push_neg at hc
            simp at hgt; omega
          have hone : (1:Nat) ≤ (lastN cap rs).length := by omega
          rw [List.drop_append_of_le_length hone]
          have hk : (rs ++ [r]).length - cap ≤ rs.length := by
            simp; omega
          simp only [lastN, List.drop_drop,
            List.drop_append_of_le_length hk]
          have harith : rs.length - cap + 1 = (rs ++ [r]).length - cap := by
            simp; omega
          rw [harith]
        · rename_i hle
          rw [List.length_append, hllen] at hle
          push_neg at hle
          have hlt : rs.length < cap := by
            by_contra hc; push_neg at hc
            simp at hle; omega
          have hz1 : rs.length - cap = 0 := by omega
          simp only [lastN, hz1, List.drop_zero, List.length_append,
            List.length_cons, List.length_nil]
          have hz2 : rs.length + (0 + 1) - cap = 0 := by omega
          rw [hz2, List.drop_zero]
  refine ⟨key rs, ?_, ?_⟩
  · rw [key rs]; simp only [lastN, List.length_drop]; omega
  · rw [key rs]; simp only [lastN, List.length_drop]; omega

/-- C2 witness: capacity 2, three insertions keep the last two records. -/
theorem c2_add_emotion_sliding_window_witness :
    (1:Nat) ≤ 2 ∧
    ([sampleRecordW 1, sampleRecordW 2, sampleRecordW 3].foldl addEmotion
        ⟨2, []⟩).history
      = lastN 2 [sampleRecordW 1, sampleRecordW 2, sampleRecordW 3] := by
  exact ⟨by norm_num,
    (c2_add_emotion_sliding_window 2 (by norm_num)
      [sampleRecordW 1, sampleRecordW 2, sampleRecordW 3]).1⟩

/-- C3: the emotion trend of an empty history is the empty mapping, and the
trend of a one-record history is exactly that record's emotion mapping
(the keys of a Python dict are distinct). -/
theorem c3_trend_empty_and_singleton (cap : Nat) (r : EmotionResult)
    (hkeys : (dictKeys r.emotions).Nodup) :
    getEmotionTrend ⟨cap, []⟩ = [] ∧
    getEmotionTrend ⟨cap, [r]⟩ = r.emotions := by
  constructor
  · simp [getEmotionTrend]
  · have hrecent : lastN 5 [r] = [r] := by simp [lastN]
    simp only [getEmotionTrend, List.isEmpty_cons, Bool.false_eq_true,
      if_false, hrecent, List.foldl_cons, List.foldl_nil]
    rw [foldl_dictAdd_fresh r.emotions [] (by simp [dictKeys]) hkeys]
    simp only [List.nil_append, List.length_singleton, Nat.cast_one,
      List.map_map]
    have : ((fun p : String × ℚ => (p.1, p.2 / 1)) ∘
        fun p : String × ℚ => (p.1, 0 + p.2)) = id := by
      funext p; simp
    rw [this, List.map_id]

/-- C3 witness: a concrete two-emotion record round-trips through the trend. -/
theorem c3_trend_empty_and_singleton_witness :
    (dictKeys [("joy", (1:ℚ)/2), ("sadness", (1:ℚ)/4)]).Nodup ∧
    getEmotionTrend ⟨10, [⟨[("joy", (1:ℚ)/2), ("sadness", (1:ℚ)/4)],
        "joy", 1/2, 0, "w"⟩]⟩
      = [("joy", (1:ℚ)/2), ("sadness", (1:ℚ)/4)] := by
  refine ⟨by simp [dictKeys], ?_⟩
  exact (c3_trend_empty_and_singleton 10
    ⟨[("joy", (1:ℚ)/2), ("sadness", (1:ℚ)/4)], "joy", 1/2, 0, "w"⟩
    (by simp [dictKeys])).2

/-! ## ConversationManager (`src/conversation_manager.py`) -/

/-- The `Message` TypedDict: role, content, ISO timestamp and optional
emotion scores. -/
structure PyMessage where
  role : String
  content : String
  timestamp : String
  emotions : Option (List (String × ℚ))
  deriving Repr, DecidableEq

/-- The `ConversationManager` state: id, ordered messages, and the side list
of user-message emotion dicts. -/
structure ConversationManager where
  conversation_id : String
  messages : List PyMessage
  emotion_history : List (List (String × ℚ))
  deriving Repr, DecidableEq

/-- A freshly constructed manager (empty messages and emotion history). -/
def freshManager : ConversationManager := ⟨"conv_20231027_100000", [], []⟩

/-- Python truthiness of the `emotions` argument: not `None` and not the
empty dict. -/
def truthyEmotions : Option (List (String × ℚ)) → Bool
  | none => false
  | some e => !e.isEmpty

/-- `ConversationManager.add_message`: raises `ValueError` before any
mutation when the role is invalid; otherwise appends the message and, when
the role is `user` and `emotions` is truthy, also appends to
`emotion_history`.  The wall-clock timestamp is passed explicitly. -/
def addMessage (m : ConversationManager) (role content ts : String)
    (emotions : Option (List (String × ℚ))) :
    Except String ConversationManager :=
  if role ≠ "user" ∧ role ≠ "assistant" then
    .error "Role must be either \x27user\x27 or \x27assistant\x27"
  else
    let m1 := { m with messages := m.messages ++ [⟨role, content, ts, emotions⟩] }
    if role = "user" ∧ truthyEmotions emotions then
      .ok { m1 with emotion_history :=
              m1.emotion_history ++ [emotions.getD []] }
    else .ok m1

/-- A raising call at the Python REPL leaves the object as it was: the
exception propagates and no attribute was assigned before the `raise`. -/
def addMessageOrKeep (m : ConversationManager) (role content ts : String)
    (emotions : Option (List (String × ℚ))) : ConversationManager :=
  match addMessage m role content ts emotions with
  | .ok m2 => m2
  | .error _ => m

/-- C4: for any role outside user/assistant, `add_message` fails with the
invalid-role `ValueError` and mutates nothing; two such calls on a fresh
manager leave the message count and emotion history at zero. -/
theorem c4_add_message_invalid_role (role : String)
    (h1 : role ≠ "user") (h2 : role ≠ "assistant")
    (m : ConversationManager) (content ts : String)
    (emotions : Option (List (String × ℚ)))
    (content2 ts2 : String) (emotions2 : Option (List (String × ℚ))) :
    addMessage m role content ts emotions
      = .error "Role must be either \x27user\x27 or \x27assistant\x27" ∧
    (addMessageOrKeep (addMessageOrKeep freshManager role content ts emotions)
        role content2 ts2 emotions2).messages.length = 0 ∧
    (addMessageOrKeep (addMessageOrKeep freshManager role content ts emotions)
        role content2 ts2 emotions2).emotion_history.length = 0 := by
  have herr : ∀ (mm : ConversationManager) (c t : String)
      (e : Option (List (String × ℚ))),
      addMessage mm role c t e
        = .error "Role must be either \x27user\x27 or \x27assistant\x27" := by
    intro mm c t e
    simp [addMessage, h1, h2]
  have hkeep : ∀ (mm : ConversationManager) (c t : String)
      (e : Option (List (String × ℚ))),
      addMessageOrKeep mm role c t e = mm := by
    intro mm c t e
    simp [addMessageOrKeep, herr]
  refine ⟨herr m content ts emotions, ?_, ?_⟩ <;>
    simp [hkeep, freshManager]

/-- C4 witness: the role string `invalid` at concrete arguments. -/
theorem c4_add_message_invalid_role_witness :
    addMessage freshManager "invalid" "test" "t0" none
      = .error "Role must be either \x27user\x27 or \x27assistant\x27" ∧
    (addMessageOrKeep (addMessageOrKeep freshManager "invalid" "test" "t0" none)
        "invalid" "test" "t0" none).messages.length = 0 := by
  have h := c4_add_message_invalid_role "invalid" (by decide) (by decide)
    freshManager "test" "t0" none "test" "t0" none
  exact ⟨h.1, h.2.1⟩

/-! ## Persistence (`save_conversation` / `load_conversation`) -/

/-- JSON values as written by `json.dump` and read back by `json.load`. -/
inductive Json where
  | null
  | str (s : String)
  | num (q : ℚ)
  | arr (items : List Json)
  | obj (fields : List (String × Json))

/-- Serialize an optional emotions dict (`None` becomes JSON null). -/
def encodeEmotions : Option (List (String × ℚ)) → Json
  | none => .null
  | some e => .obj (e.map (fun p => (p.1, .num p.2)))

/-- Parse the fields of an emotions object back to scores. -/
def decodeScores : List (String × Json) → Option (List (String × ℚ))
  | [] => some []
  | (k, .num q) :: rest =>
      match decodeScores rest with
      | some e => some ((k, q) :: e)
      | none => none
  | _ => none

/-- Parse an optional emotions value (null or an object of numbers). -/
def decodeEmotions : Json → Option (Option (List (String × ℚ)))
  | .null => some none
  | .obj fields =>
      match decodeScores fields with
      | some e => some (some e)
      | none => none
  | _ => none

/-- Serialize one message as its four-field JSON object. -/
def encodeMessage (msg : PyMessage) : Json :=
  .obj [("role", .str msg.role), ("content", .str msg.content),
        ("timestamp", .str msg.timestamp),
        ("emotions", encodeEmotions msg.emotions)]

/-- Find a field of a JSON object by name (Python `data[key]`). -/
def jsonField (fields : List (String × Json)) (key : String) : Option Json :=
  match fields.find? (fun p => p.1 = key) with
  | some p => some p.2
  | none => none

/-- Parse one message object. -/
def decodeMessage : Json → Option PyMessage
  | .obj fields =>
      match jsonField fields "role", jsonField fields "content",
            jsonField fields "timestamp", jsonField fields "emotions" with
      | some (.str role), some (.str content), some (.str ts), some ej =>
          match decodeEmotions ej with
          | some e => some ⟨role, content, ts, e⟩
          | none => none
      | _, _, _, _ => none
  | _ => none

/-- Parse a JSON array of messages, failing on any malformed entry. -/
def decodeMessages : List Json → Option (List PyMessage)
  | [] => some []
  | j :: rest =>
      match decodeMessage j, decodeMessages rest with
      | some msg, some msgs => some (msg :: msgs)
      | _, _ => none

/-- `ConversationManager.save_conversation`: refuses an empty conversation,
otherwise serializes `conversation_id`, `created_at` (the first message's
timestamp) and the messages. -/
def saveConversation (m : ConversationManager) : Except String Json :=
  match m.messages with
  | [] => .error "No messages to save"
  | msg0 :: _ =>
      .ok (.obj [("conversation_id", .str m.conversation_id),
                 ("created_at", .str msg0.timestamp),
                 ("messages", .arr (m.messages.map encodeMessage))])

/-- The emotion-history side list rebuilt by `load_conversation`: the
emotions of the user messages whose emotions are truthy, in order. -/
def derivedEmotionHistory (msgs : List PyMessage) :
    List (List (String × ℚ)) :=
  msgs.filterMap (fun msg =>
    if msg.role = "user" ∧ truthyEmotions msg.emotions then msg.emotions
    else none)

/-- `ConversationManager.load_conversation`: reads the id and messages back
and rebuilds the emotion-history side list by filtering. -/
def loadConversation : Json → Option ConversationManager
  | .obj fields =>
      match jsonField fields "conversation_id", jsonField fields "messages" with
      | some (.str cid), some (.arr items) =>
          match decodeMessages items with
          | some msgs => some ⟨cid, msgs, derivedEmotionHistory msgs⟩
          | none => none
      | _, _ => none
  | _ => none

/-- Score lists survive the encode/decode cycle. -/
theorem decodeScores_encode (e : List (String × ℚ)) :
    decodeScores (e.map (fun p => (p.1, .num p.2))) = some e := by
  induction e with
  | nil => rfl
  | cons p rest ih =>
      simp only [List.map_cons, decodeScores, ih]

/-- Messages survive the encode/decode cycle. -/
theorem decodeMessage_encode (msg : PyMessage) :
    decodeMessage (encodeMessage msg) = some msg := by
  cases msg with
  | mk role content ts emotions =>
      cases emotions with
      | none => simp [decodeMessage, encodeMessage, jsonField, encodeEmotions,
          decodeEmotions]
      | some e =>
          simp [decodeMessage, encodeMessage, jsonField, encodeEmotions,
            decodeEmotions, decodeScores_encode]

/-- Message lists survive the encode/decode cycle. -/
theorem decodeMessages_encode (msgs : List PyMessage) :
    decodeMessages (msgs.map encodeMessage) = some msgs := by
  induction msgs with
  | nil => rfl
  | cons msg rest ih =>
      simp only [List.map_cons, decodeMessages, decodeMessage_encode msg, ih]

/-- `add_message` keeps the emotion-history side list equal to the list
derived from the stored messages. -/
theorem addMessageOrKeep_preserves_derived (m : ConversationManager)
    (role content ts : String) (emotions : Option (List (String × ℚ)))
    (hinv : m.emotion_history = derivedEmotionHistory m.messages) :
    (addMessageOrKeep m role content ts emotions).emotion_history
      = derivedEmotionHistory
          (addMessageOrKeep m role content ts emotions).messages := by
  by_cases hrole : role ≠ "user" ∧ role ≠ "assistant"
  · simp [addMessageOrKeep, addMessage, hrole, hinv]
  · by_cases hu : role = "user" ∧ truthyEmotions emotions
    · have hsome : ∃ e, emotions = some e ∧ e ≠ [] := by
        cases emotions with
        | none => simp [truthyEmotions] at hu
        | some e =>
            refine ⟨e, rfl, ?_⟩
            have := hu.2
            simp [truthyEmotions, List.isEmpty_iff] at this
            exact this
      obtain ⟨e, he, hene⟩ := hsome
      subst he
      simp only [addMessageOrKeep, addMessage, if_neg hrole, if_pos hu]
      simp [derivedEmotionHistory, hinv, hu.1, hu.2, Option.getD]
    · simp only [addMessageOrKeep, addMessage, if_neg hrole, if_neg hu]
      simp [derivedEmotionHistory, hinv, hu]

/-- One recorded call to `add_message`. -/
structure MsgCall where
  role : String
  content : String
  ts : String
  emotions : Option (List (String × ℚ))

/-- Replay a sequence of `add_message` calls on a fresh manager. -/
def applyCalls (calls : List MsgCall) : ConversationManager :=
  calls.foldl
    (fun m c => addMessageOrKeep m c.role c.content c.ts c.emotions)
    freshManager

/-- Replaying calls from any state with a consistent side list keeps the side
list equal to the one derived from the messages. -/
theorem foldl_calls_derived (calls : List MsgCall) :
    ∀ m : ConversationManager,
    m.emotion_history = derivedEmotionHistory m.messages →
    (calls.foldl
        (fun m c => addMessageOrKeep m c.role c.content c.ts c.emotions)
        m).emotion_history
      = derivedEmotionHistory
          (calls.foldl
            (fun m c => addMessageOrKeep m c.role c.content c.ts c.emotions)
            m).messages := by
  induction calls with
  | nil => intro m hinv; exact hinv
  | cons c rest ih =>
      intro m hinv
      exact ih _ (addMessageOrKeep_preserves_derived m c.role c.content c.ts
        c.emotions hinv)

/-- C6: saving a non-empty conversation built by `add_message` calls and
loading the result reproduces the identical ordered message list, and an
emotion-history side list that both equals the filter-derived list and the
original manager's side list. -/
theorem c6_save_load_roundtrip (calls : List MsgCall)
    (hne : (applyCalls calls).messages ≠ []) :
    ∃ (j : Json) (m2 : ConversationManager),
      saveConversation (applyCalls calls) = .ok j ∧
      loadConversation j = some m2 ∧
      m2.messages = (applyCalls calls).messages ∧
      m2.emotion_history
        = derivedEmotionHistory (applyCalls calls).messages ∧
      m2.emotion_history = (applyCalls calls).emotion_history := by
  obtain ⟨msg0, rest, hm⟩ : ∃ a l, (applyCalls calls).messages = a :: l := by
    cases h : (applyCalls calls).messages with
    | nil => exact absurd h hne
    | cons a l => exact ⟨a, l, rfl⟩
  have hsave : saveConversation (applyCalls calls)
      = .ok (.obj [("conversation_id", .str (applyCalls calls).conversation_id),
                   ("created_at", .str msg0.timestamp),
                   ("messages", .arr ((applyCalls calls).messages.map
                      encodeMessage))]) := by
    rw [saveConversation, hm]
  have hload : loadConversation
      (.obj [("conversation_id", .str (applyCalls calls).conversation_id),
             ("created_at", .str msg0.timestamp),
             ("messages", .arr ((applyCalls calls).messages.map
                encodeMessage))])
      = some ⟨(applyCalls calls).conversation_id, (applyCalls calls).messages,
              derivedEmotionHistory (applyCalls calls).messages⟩ := by
    simp [loadConversation, jsonField, decodeMessages_encode]
  refine ⟨_, _, hsave, hload, rfl, rfl, ?_⟩
  have hinv := foldl_calls_derived calls freshManager (by rfl)
  exact hinv.symm

/-- C6 witness: a two-message conversation (user with emotions, assistant
without) round-trips. -/
theorem c6_save_load_roundtrip_witness :
    (applyCalls [⟨"user", "hello", "t1", some [("joy", (1:ℚ)/2)]⟩,
                 ⟨"assistant", "hi", "t2", none⟩]).messages ≠ [] ∧
    ∃ (j : Json) (m2 : ConversationManager),
      saveConversation (applyCalls
          [⟨"user", "hello", "t1", some [("joy", (1:ℚ)/2)]⟩,
           ⟨"assistant", "hi", "t2", none⟩]) = .ok j ∧
      loadConversation j = some m2 ∧
      m2.messages = (applyCalls
          [⟨"user", "hello", "t1", some [("joy", (1:ℚ)/2)]⟩,
           ⟨"assistant", "hi", "t2", none⟩]).messages := by
  have hne : (applyCalls [⟨"user", "hello", "t1", some [("joy", (1:ℚ)/2)]⟩,
      ⟨"assistant", "hi", "t2", none⟩]).messages ≠ [] := by
    simp [applyCalls, addMessageOrKeep, addMessage, freshManager,
      truthyEmotions]
  obtain ⟨j, m2, h1, h2, h3, _, _⟩ := c6_save_load_roundtrip
    [⟨"user", "hello", "t1", some [("joy", (1:ℚ)/2)]⟩,
     ⟨"assistant", "hi", "t2", none⟩] hne
  exact ⟨hne, j, m2, h1, h2, h3⟩

/-! ## File-system trace model of the two save paths

`ConversationManager.save_conversation` opens the destination with
`open(filename, "w")` (truncate) and writes into it; `utils.save_json_file`
writes a sibling `.tmp` file and renames it over the destination.  A file
system is a list of (path, content) entries; an interruption after `k`
operations leaves the prefix of length `k` applied. -/

/-- One observable file-system operation. -/
inductive FsOp where
  | openTrunc (path : String)
  | writeData (path content : String)
  | rename (src dst : String)

/-- Read a file. -/
def fsGet : List (String × String) → String → Option String
  | [], _ => none
  | (p', c') :: rest, p => if p' = p then some c' else fsGet rest p

/-- Create or overwrite a file. -/
def fsSet : List (String × String) → String → String → List (String × String)
  | [], p, c => [(p, c)]
  | (p', c') :: rest, p, c =>
      if p' = p then (p', c) :: rest else (p', c') :: fsSet rest p c

/-- Remove a file. -/
def fsDel : List (String × String) → String → List (String × String)
  | [], _ => []
  | (p', c') :: rest, p =>
      if p' = p then fsDel rest p else (p', c') :: fsDel rest p

/-- Apply one operation. -/
def applyOp (fs : List (String × String)) : FsOp → List (String × String)
  | .openTrunc p => fsSet fs p ""
  | .writeData p c => fsSet fs p (((fsGet fs p).getD "") ++ c)
  | .rename src dst =>
      match fsGet fs src with
      | some c => fsSet (fsDel fs src) dst c
      | none => fs

/-- Apply a trace of operations. -/
def applyOps (fs : List (String × String)) (ops : List FsOp) :
    List (String × String) :=
  ops.foldl applyOp fs

/-- `save_conversation` (`src/conversation_manager.py` lines 90-99): truncate
the destination in place, then write the serialized payload into it. -/
def saveConversationOps (target payload : String) : List FsOp :=
  [.openTrunc target, .writeData target payload]

/-- `utils.save_json_file` (`src/utils.py` lines 287-294): write the payload
to the sibling temp file, then atomically rename it over the destination. -/
def saveJsonFileOps (tmp target payload : String) : List FsOp :=
  [.openTrunc tmp, .writeData tmp payload, .rename tmp target]

/-- A write trace is crash-safe for `target` when, at every interruption
point, the destination holds either its prior content or the full new
payload. -/
def crashSafe (ops : List FsOp) (fs0 : List (String × String))
    (target payload : String) : Prop :=
  ∀ k, k ≤ ops.length →
    fsGet (applyOps fs0 (ops.take k)) target = fsGet fs0 target ∨
    fsGet (applyOps fs0 (ops.take k)) target = some payload

/-- Reading after a write at the same or another path. -/
theorem fsGet_fsSet (fs : List (String × String)) (p q : String)
    (c : String) :
    fsGet (fsSet fs p c) q = if p = q then some c else fsGet fs q := by
  induction fs with
  | nil =>
      by_cases h : p = q <;> simp [fsSet, fsGet, h]
  | cons e rest ih =>
      obtain ⟨p', c'⟩ := e
      by_cases h1 : p' = p
      · by_cases h2 : p' = q
        · have hpq : p = q := h1 ▸ h2
          simp [fsSet, fsGet, h1, h2, hpq]
        · have hpq : p ≠ q := fun h => h2 (h1.trans h)
          simp [fsSet, fsGet, h1, h2, hpq]
      · by_cases h2 : p' = q
        · have hpq : p ≠ q := fun h => h1 (h2.symm ▸ h).symm
          have hqp : q ≠ p := fun h => hpq h.symm
          simp [fsSet, fsGet, h1, h2, hpq, hqp]
        · simp [fsSet, fsGet, h1, h2, ih]

/-- Reading an unrelated path after removing a file. -/
theorem fsGet_fsDel_ne (fs : List (String × String)) (p q : String)
    (h : p ≠ q) : fsGet (fsDel fs p) q = fsGet fs q := by
  induction fs with
  | nil => rfl
  | cons e rest ih =>
      obtain ⟨p', c'⟩ := e
      by_cases h1 : p' = p
      · have h2 : p' ≠ q := h1.symm ▸ h
        simp [fsDel, fsGet, h1, h2, ih, h]
      · by_cases h2 : p' = q
        · have hqp : q ≠ p := fun hh => h (hh.symm)
          simp [fsDel, fsGet, h1, h2, hqp]
        · simp [fsDel, fsGet, h1, h2, ih]

/-- Prepending the empty string is the identity. -/
theorem empty_append_str (s : String) : "" ++ s = s := rfl

/-- C5 counterexample: it is not true that the `save_conversation` write
trace is crash-safe — interrupting right after the destination is opened
for writing (truncated) leaves neither the prior snapshot nor the new
payload. -/
theorem c5_claim_false :
    ¬ (∀ (target payload : String) (fs0 : List (String × String)),
        crashSafe (saveConversationOps target payload) fs0 target payload) := by
  intro h
  have h1 := h "conv.json" "new-snapshot" [("conv.json", "old-snapshot")]
    1 (by norm_num [saveConversationOps])
  simp only [saveConversationOps, List.take_succ_cons, List.take_zero,
    applyOps, List.foldl_cons, List.foldl_nil, applyOp] at h1
  rw [fsGet_fsSet] at h1
  simp [fsGet] at h1

/-- C5 amended: the write trace of `utils.save_json_file` (temp file plus
rename, which `save_conversation` does not use) is crash-safe, while the
direct truncate-and-write trace of `save_conversation` is not, whenever the
prior snapshot and the payload are non-empty. -/
theorem c5_save_atomicity_amended (tmp target old payload : String)
    (hne : tmp ≠ target) (hold : old ≠ "") (hnew : payload ≠ "") :
    crashSafe (saveJsonFileOps tmp target payload)
      [(target, old)] target payload ∧
    ¬ crashSafe (saveConversationOps target payload)
      [(target, old)] target payload := by
  constructor
  · intro k hk
    simp only [saveJsonFileOps, List.length_cons, List.length_nil] at hk
    have htarget0 : fsGet [(target, old)] target = some old := by
      simp [fsGet]
    match k with
    | 0 => left; rfl
    | 1 =>
        left
        simp only [saveJsonFileOps, List.take_succ_cons, List.take_zero,
          applyOps, List.foldl_cons, List.foldl_nil, applyOp]
        rw [fsGet_fsSet, if_neg hne]
    | 2 =>
        left
        simp only [saveJsonFileOps, List.take_succ_cons, List.take_zero,
          applyOps, List.foldl_cons, List.foldl_nil, applyOp]
        rw [fsGet_fsSet, if_neg hne, fsGet_fsSet, if_neg hne]
    | 3 =>
        right
        simp only [saveJsonFileOps, List.take_succ_cons, List.take_zero,
          applyOps, List.foldl_cons, List.foldl_nil, applyOp]
        have hread : fsGet (fsSet (fsSet [(target, old)] tmp "") tmp
            (((fsGet (fsSet [(target, old)] tmp "") tmp).getD "") ++ payload))
            tmp = some ((((fsGet (fsSet [(target, old)] tmp "") tmp).getD "")
              ++ payload)) := by
          rw [fsGet_fsSet, if_pos rfl]
        rw [hread]
        rw [fsGet_fsSet, if_pos rfl]
        rw [fsGet_fsSet, if_pos rfl]
        simp [empty_append_str]
    | (n + 4) => omega
  · intro h
    have h1 := h 1 (by norm_num [saveConversationOps])
    simp only [saveConversationOps, List.take_succ_cons, List.take_zero,
      applyOps, List.foldl_cons, List.foldl_nil, applyOp] at h1
    rw [fsGet_fsSet, if_pos rfl] at h1
    simp only [fsGet, if_pos rfl] at h1
    rcases h1 with h1 | h1
    · exact hold (Option.some.inj h1).symm
    · exact hnew (Option.some.inj h1).symm

/-- C5 witness for the amended theorem: the concrete paths used by the
manager (`conv.json` with sibling `conv.tmp`) and non-empty snapshots. -/
theorem c5_save_atomicity_amended_witness :
    ("conv.tmp" : String) ≠ "conv.json" ∧
    crashSafe (saveJsonFileOps "conv.tmp" "conv.json" "new-snapshot")
      [("conv.json", "old-snapshot")] "conv.json" "new-snapshot" ∧
    ¬ crashSafe (saveConversationOps "conv.json" "new-snapshot")
      [("conv.json", "old-snapshot")] "conv.json" "new-snapshot" := by
  have h := c5_save_atomicity_amended "conv.tmp" "conv.json"
    "old-snapshot" "new-snapshot" (by decide) (by decide) (by decide)
  exact ⟨by decide, h.1, h.2⟩

/-! ## Orchestration (`app.py`, function `process_user_input`, lines 644-693)

The two collaborator calls are parameters: `analyze` stands for the emotion
analysis plus primary-emotion extraction, `gen` for the response generation.
An uncaught exception propagates (the outer handler re-raises), leaving the
session-state manager as mutated so far; `.error` carries that state.  The
trailing `save_conversation` call swallows its own errors and does not
mutate the in-memory manager. -/

/-- Overwrite the `emotions` field of the last message, if any. -/
def updateLastEmotions : List PyMessage → List (String × ℚ) → List PyMessage
  | [], _ => []
  | [msg], e => [{ msg with emotions := some e }]
  | msg :: next :: rest, e => msg :: updateLastEmotions (next :: rest) e

/-- Python `messages[-1]["emotions"] = emotions`, guarded by a non-emptiness
check on the list; `emotion_history` is not touched. -/
def setLastMessageEmotions (m : ConversationManager)
    (e : List (String × ℚ)) : ConversationManager :=
  { m with messages := updateLastEmotions m.messages e }

/-- One run of `process_user_input`: append the user message (without
emotions), analyze, patch the analyzed emotions into the last message,
generate, append the assistant message.  A failing step propagates with the
state mutated so far. -/
def processUserInput (m : ConversationManager) (input ts1 ts2 : String)
    (analyze : Except Unit (List (String × ℚ)))
    (gen : Except Unit String) :
    Except ConversationManager (ConversationManager × String) :=
  match addMessage m "user" input ts1 none with
  | .error _ => .error m
  | .ok m1 =>
      match analyze with
      | .error _ => .error m1
      | .ok emotions =>
          let m2 := setLastMessageEmotions m1 emotions
          match gen with
          | .error _ => .error m2
          | .ok response =>
              match addMessage m2 "assistant" response ts2 none with
              | .error _ => .error m2
              | .ok m3 => .ok (m3, response)

/-- Patching the emotions of the last message rewrites exactly the appended
element. -/
theorem updateLastEmotions_append (l : List PyMessage) (x : PyMessage)
    (e : List (String × ℚ)) :
    updateLastEmotions (l ++ [x]) e = l ++ [{ x with emotions := some e }] := by
  induction l with
  | nil => rfl
  | cons a rest ih =>
      cases rest with
      | nil => simp [updateLastEmotions]
      | cons b rest2 =>
          simp only [List.cons_append, updateLastEmotions]
          simp only [List.cons_append] at ih
          exact congrArg (List.cons a) ih

/-- C7 counterexample: it is not true that a failed turn leaves the ledger
unchanged — with a fresh manager, a successful analysis and a failing
generator, the error state contains one (user) message. -/
theorem c7_claim_false :
    ¬ (∀ (m : ConversationManager) (input ts1 ts2 : String)
        (analyze : Except Unit (List (String × ℚ)))
        (gen : Except Unit String) (m2 : ConversationManager),
        processUserInput m input ts1 ts2 analyze gen = .error m2 →
        m2.messages = m.messages) := by
  intro h
  have hrun : processUserInput freshManager "hello" "t1" "t2"
      (.ok [("joy", (1:ℚ)/2)]) (.error ())
      = .error ⟨"conv_20231027_100000",
          [⟨"user", "hello", "t1", some [("joy", (1:ℚ)/2)]⟩], []⟩ := by
    simp [processUserInput, addMessage, freshManager, truthyEmotions,
      setLastMessageEmotions, updateLastEmotions]
  have hx := h freshManager "hello" "t1" "t2"
    (.ok [("joy", (1:ℚ)/2)]) (.error ()) _ hrun
  simp [freshManager] at hx

/-- C7 amended: `process_user_input` appends the user message BEFORE the
collaborator calls; a failing emotion analysis leaves exactly the user
message (emotions `None`) recorded, and a failing response generation leaves
exactly the user message with its analyzed emotions recorded — only the
assistant append waits for the response, so a failed turn leaves a partial
turn, not an unchanged ledger, and the assistant response never appears in
a failed turn. -/
theorem c7_process_user_input_amended (m : ConversationManager)
    (input ts1 ts2 : String) (e : List (String × ℚ))
    (g : Except Unit String) :
    processUserInput m input ts1 ts2 (.error ()) g
      = .error { m with messages :=
          m.messages ++ [⟨"user", input, ts1, none⟩] } ∧
    processUserInput m input ts1 ts2 (.ok e) (.error ())
      = .error { m with messages :=
          m.messages ++ [⟨"user", input, ts1, some e⟩] } := by
  have huser : addMessage m "user" input ts1 none
      = .ok { m with messages := m.messages ++ [⟨"user", input, ts1, none⟩] } := by
    simp [addMessage, truthyEmotions]
  constructor
  · simp [processUserInput, huser]
  · simp [processUserInput, huser, setLastMessageEmotions,
      updateLastEmotions_append]

/-! ## Fallback emotion analysis
(`src/emotion_analyzer.py`, `HumeEmotionAnalyzer._fallback_emotion_analysis`) -/

/-- The fixed 18-label emotion vocabulary (`self.primary_emotions`). -/
def primaryEmotions : List String :=
  ["joy", "sadness", "anger", "fear", "surprise", "disgust",
   "contempt", "excitement", "amusement", "contentment",
   "disappointment", "doubt", "enthusiasm", "interest",
   "satisfaction", "shame", "sympathy", "tiredness"]

/-- The keyword lexicon of the fallback analyzer, in source order. -/
def emotionKeywords : List (String × List String) :=
  [("joy", ["happy", "joy", "excited", "great", "awesome", "wonderful",
            "amazing"]),
   ("sadness", ["sad", "depressed", "down", "unhappy", "disappointed",
                "upset"]),
   ("anger", ["angry", "mad", "furious", "annoyed", "frustrated",
              "irritated"]),
   ("fear", ["scared", "afraid", "worried", "anxious", "nervous",
             "terrified"]),
   ("surprise", ["surprised", "shocked", "unexpected", "sudden", "wow"]),
   ("amusement", ["funny", "hilarious", "laugh", "haha", "lol", "amusing"])]

/-- Does the needle occur at the very start of the haystack? -/
def prefixMatches : List Char → List Char → Bool
  | [], _ => true
  | _ :: _, [] => false
  | c :: cs, d :: ds => c == d && prefixMatches cs ds

/-- Does the needle occur contiguously anywhere in the haystack? -/
def occursIn (needle : List Char) : List Char → Bool
  | [] => prefixMatches needle []
  | c :: cs => prefixMatches needle (c :: cs) || occursIn needle cs

/-- Python `text.lower()`, as a character list (ASCII lowering suffices for
the curated lexicon). -/
def pyLower (s : String) : List Char := s.data.map Char.toLower

/-- Python `keyword in text_lower`: substring containment. -/
def containsKeyword (textLower : List Char) (kw : String) : Bool :=
  occursIn kw.data textLower

/-- Python `max(emotions.items(), key=lambda x: x[1])[0]` keeps the first
maximal entry in insertion order. -/
def argmaxFirstGo (k : String) (v : ℚ) : List (String × ℚ) → String
  | [] => k
  | (k', v') :: rest =>
      if v < v' then argmaxFirstGo k' v' rest else argmaxFirstGo k v rest

/-- First key of maximal value of a non-empty dict. -/
def argmaxFirst : List (String × ℚ) → String
  | [] => ""
  | (k, v) :: rest => argmaxFirstGo k v rest

/-- The keyword-scoring loops of `_fallback_emotion_analysis`: start every
vocabulary label at 0.0 and add 0.3 per lexicon keyword contained in the
lowercased text. -/
def fallbackScores (text : String) : List (String × ℚ) :=
  let textLower := pyLower text
  emotionKeywords.foldl
    (fun acc ek => ek.2.foldl
      (fun a kw => if containsKeyword textLower kw then dictAdd a ek.1 (3/10)
                   else a) acc)
    (primaryEmotions.map (fun e => (e, (0 : ℚ))))

/-- `HumeEmotionAnalyzer._fallback_emotion_analysis`: score by keywords,
take the first maximal label as dominant; when its score is 0.0, fall back
to `contentment` at 0.5.  Confidence is the dominant score.  The creation
time is immaterial and fixed at 0. -/
def fallbackEmotionAnalysis (text : String) : EmotionResult :=
  let scored := fallbackScores text
  let dom := argmaxFirst scored
  if dictGetD scored dom 0 = 0 then
    let patched := dictSet scored "contentment" (1/2)
    ⟨patched, "contentment", dictGetD patched "contentment" 0, 0, text⟩
  else
    ⟨scored, dom, dictGetD scored dom 0, 0, text⟩

/-- The number of lexicon keywords of one group found in the lowered text. -/
def cntKW (text : String) (kws : List String) : Nat :=
  kws.countP (fun kw => containsKeyword (pyLower text) kw)

/-- Reading a cons cell of a dict. -/
theorem dictGetD_cons (k' : String) (v' : ℚ) (rest : List (String × ℚ))
    (q : String) (d : ℚ) :
    dictGetD ((k', v') :: rest) q d
      = if k' = q then v' else dictGetD rest q d := by
  by_cases h : k' = q <;> simp [dictGetD, List.find?, h]

/-- Reading after `dictAdd` adds the increment exactly at its key. -/
theorem dictGetD_dictAdd (a : List (String × ℚ)) (k q : String) (v : ℚ) :
    dictGetD (dictAdd a k v) q 0
      = dictGetD a q 0 + (if k = q then v else 0) := by
  induction a with
  | nil =>
      by_cases h : k = q <;>
        simp [dictAdd, dictGetD_cons, dictGetD, h]
  | cons p rest ih =>
      obtain ⟨k', v'⟩ := p
      by_cases h1 : k' = k
      · simp only [dictAdd, if_pos h1, dictGetD_cons]
        by_cases h2 : k' = q
        · rw [if_pos h2, if_pos h2, if_pos (h1.symm.trans h2)]
        · rw [if_neg h2, if_neg h2, if_neg (fun h => h2 (h1.trans h))]
          ring
      · simp only [dictAdd, if_neg h1, dictGetD_cons]
        by_cases h2 : k' = q
        · rw [if_pos h2, if_pos h2,
            if_neg (fun h => h1 (h2.trans h.symm))]
          ring
        · rw [if_neg h2, if_neg h2, ih]

/-- Reading after `dictSet` sees the new value exactly at its key. -/
theorem dictGetD_dictSet (a : List (String × ℚ)) (k q : String) (v : ℚ) :
    dictGetD (dictSet a k v) q 0
      = if k = q then v else dictGetD a q 0 := by
  induction a with
  | nil =>
      by_cases h : k = q <;> simp [dictSet, dictGetD_cons, dictGetD, h]
  | cons p rest ih =>
      obtain ⟨k', v'⟩ := p
      by_cases h1 : k' = k
      · simp only [dictSet, if_pos h1, dictGetD_cons]
        by_cases h2 : k' = q
        · rw [if_pos h2, if_pos (h1.symm.trans h2)]
        · rw [if_neg h2, if_neg (fun h => h2 (h1.trans h)), if_neg h2]
      · simp only [dictSet, if_neg h1, dictGetD_cons]
        by_cases h2 : k' = q
        · rw [if_pos h2, if_neg (fun h => h1 (h2.trans h.symm)), if_pos h2]
        · rw [if_neg h2, if_neg h2, ih]

/-- Pointwise effect of one keyword group's scoring loop: the group's key
gains 0.3 per matching keyword, every other key is untouched. -/
theorem innerFold_getD (tl : List Char) (e : String) (kws : List String)
    (q : String) :
    ∀ acc : List (String × ℚ),
    dictGetD (kws.foldl
        (fun a kw => if containsKeyword tl kw then dictAdd a e (3/10) else a)
        acc) q 0
      = dictGetD acc q 0 +
        (if e = q
         then ((kws.countP (fun kw => containsKeyword tl kw) : ℚ)) * (3/10)
         else 0) := by
  induction kws with
  | nil =>
      intro acc
      by_cases h : e = q <;> simp [h]
  | cons kw rest ih =>
      intro acc
      simp only [List.foldl_cons]
      by_cases hc : containsKeyword tl kw = true
      · rw [if_pos hc, ih (dictAdd acc e (3/10)), dictGetD_dictAdd]
        rw [List.countP_cons, if_pos hc]
        by_cases h : e = q
        · rw [if_pos h, if_pos h, if_pos h]
          push_cast
          ring
        · rw [if_neg h, if_neg h, if_neg h]
          ring
      · rw [if_neg hc, ih acc, List.countP_cons, if_neg hc]
        simp

/-- Every key of the all-zero base mapping reads as 0. -/
theorem dictGetD_base (l : List String) (q : String) :
    dictGetD (l.map (fun e => (e, (0 : ℚ)))) q 0 = 0 := by
  induction l with
  | nil => simp [dictGetD]
  | cons e rest ih =>
      by_cases h : e = q <;> simp [dictGetD_cons, h, ih]

/-- The score one lexicon group adds at the key `q`. -/
def groupContribution (tl : List Char) (q : String)
    (ek : String × List String) : ℚ :=
  if ek.1 = q then
    ((ek.2.countP (fun kw => containsKeyword tl kw) : ℚ)) * (3/10)
  else 0

/-- Pointwise value of the whole scoring loop: the sum of the group
contributions at the key. -/
theorem outerFold_getD (tl : List Char)
    (groups : List (String × List String)) (q : String) :
    ∀ acc : List (String × ℚ),
    dictGetD (groups.foldl
        (fun acc ek => ek.2.foldl
          (fun a kw => if containsKeyword tl kw then dictAdd a ek.1 (3/10)
                       else a) acc)
        acc) q 0
      = dictGetD acc q 0 + (groups.map (groupContribution tl q)).sum := by
  induction groups with
  | nil => intro acc; simp
  | cons g rest ih =>
      intro acc
      simp only [List.foldl_cons]
      rw [ih, innerFold_getD]
      simp only [List.map_cons, List.sum_cons, groupContribution]
      ring

/-- Pointwise value of the keyword scoring: the base is all-zero and each
group contributes at its own key. -/
theorem fallbackScores_getD (text : String) (q : String) :
    dictGetD (fallbackScores text) q 0
      = (emotionKeywords.map (groupContribution (pyLower text) q)).sum := by
  simp only [fallbackScores]
  rw [outerFold_getD, dictGetD_base, zero_add]

/-- A single group's contribution term is within the clamp-free bound. -/
theorem contribution_term_bounds (c : Nat) (hc : c ≤ 7) :
    0 ≤ (c : ℚ) * (3/10) ∧ (c : ℚ) * (3/10) ≤ 21/10 := by
  have h7 : (c : ℚ) ≤ 7 := by exact_mod_cast hc
  constructor
  · positivity
  · nlinarith

/-- Bounds on the summed group contributions at one key, for any lexicon
whose group keys are distinct and whose groups hold at most 7 keywords. -/
theorem sum_contributions_bounds (tl : List Char) (q : String)
    (groups : List (String × List String))
    (hnd : (groups.map Prod.fst).Nodup)
    (hlen : ∀ g ∈ groups, g.2.length ≤ 7) :
    0 ≤ (groups.map (groupContribution tl q)).sum ∧
    (groups.map (groupContribution tl q)).sum ≤ 21/10 := by
  induction groups with
  | nil => norm_num
  | cons g rest ih =>
      simp only [List.map_cons, List.nodup_cons] at hnd
      simp only [List.map_cons, List.sum_cons]
      by_cases h : g.1 = q
      · have hrest : (rest.map (groupContribution tl q)).sum = 0 := by
          apply List.sum_eq_zero
          intro x hx
          simp only [List.mem_map] at hx
          obtain ⟨ek, hek, hx⟩ := hx
          have hne : ek.1 ≠ q := by
            intro hq
            exact hnd.1 (List.mem_map.mpr ⟨ek, hek, (hq.trans h.symm)⟩)
          rw [← hx]
          simp [groupContribution, hne]
        rw [hrest]
        have hb := contribution_term_bounds
          (g.2.countP (fun kw => containsKeyword tl kw))
          (le_trans (List.countP_le_length _) (hlen g (by simp)))
        simp only [groupContribution, if_pos h, add_zero]
        exact hb
      · simp only [groupContribution, if_neg h, zero_add]
        exact ih hnd.2 (fun g2 hg2 => hlen g2 (List.mem_cons_of_mem g hg2))

/-- Every score produced by the keyword loops lies in [0, 2.1]: 0.3 per
matched keyword and no lexicon group has more than 7 keywords. -/
theorem fallbackScores_getD_bounds (text : String) (q : String) :
    0 ≤ dictGetD (fallbackScores text) q 0 ∧
    dictGetD (fallbackScores text) q 0 ≤ 21/10 := by
  rw [fallbackScores_getD]
  exact sum_contributions_bounds (pyLower text) q emotionKeywords
    (by decide) (by decide)

/-- `dictAdd` at a present key leaves the key list unchanged. -/
theorem dictKeys_dictAdd_mem (a : List (String × ℚ)) (k : String) (v : ℚ)
    (h : k ∈ dictKeys a) : dictKeys (dictAdd a k v) = dictKeys a := by
  induction a with
  | nil => simp [dictKeys] at h
  | cons p rest ih =>
      obtain ⟨k', v'⟩ := p
      by_cases h1 : k' = k
      · simp [dictAdd, h1, dictKeys]
      · have h2 : k ∈ dictKeys rest := by
          simp only [dictKeys, List.map_cons, List.mem_cons] at h
          rcases h with h | h
          · exact absurd h.symm h1
          · exact h
        have ih2 : List.map Prod.fst (dictAdd rest k v)
            = List.map Prod.fst rest := ih h2
        simp [dictAdd, h1, dictKeys, ih2]

/-- `dictSet` at a present key leaves the key list unchanged. -/
theorem dictKeys_dictSet_mem (a : List (String × ℚ)) (k : String) (v : ℚ)
    (h : k ∈ dictKeys a) : dictKeys (dictSet a k v) = dictKeys a := by
  induction a with
  | nil => simp [dictKeys] at h
  | cons p rest ih =>
      obtain ⟨k', v'⟩ := p
      by_cases h1 : k' = k
      · simp [dictSet, h1, dictKeys]
      · have h2 : k ∈ dictKeys rest := by
          simp only [dictKeys, List.map_cons, List.mem_cons] at h
          rcases h with h | h
          · exact absurd h.symm h1
          · exact h
        have ih2 : List.map Prod.fst (dictSet rest k v)
            = List.map Prod.fst rest := ih h2
        simp [dictSet, h1, dictKeys, ih2]

/-- The scoring loop of one group keeps the key list unchanged when the
group's key is already present. -/
theorem innerFold_keys (tl : List Char) (e : String) (kws : List String) :
    ∀ acc : List (String × ℚ), e ∈ dictKeys acc →
    dictKeys (kws.foldl
        (fun a kw => if containsKeyword tl kw then dictAdd a e (3/10) else a)
        acc) = dictKeys acc := by
  induction kws with
  | nil => intro acc _; rfl
  | cons kw rest ih =>
      intro acc hmem
      simp only [List.foldl_cons]
      by_cases hc : containsKeyword tl kw = true
      · rw [if_pos hc,
          ih _ (by rw [dictKeys_dictAdd_mem _ _ _ hmem]; exact hmem),
          dictKeys_dictAdd_mem _ _ _ hmem]
      · rw [if_neg hc, ih _ hmem]

/-- The full scoring loop keeps the key list unchanged when every group key
is already present. -/
theorem outerFold_keys (tl : List Char)
    (groups : List (String × List String)) :
    ∀ acc : List (String × ℚ), (∀ g ∈ groups, g.1 ∈ dictKeys acc) →
    dictKeys (groups.foldl
        (fun acc ek => ek.2.foldl
          (fun a kw => if containsKeyword tl kw then dictAdd a ek.1 (3/10)
                       else a) acc)
        acc) = dictKeys acc := by
  induction groups with
  | nil => intro acc _; rfl
  | cons g rest ih =>
      intro acc hmem
      simp only [List.foldl_cons]
      have hg : g.1 ∈ dictKeys acc := hmem g (by simp)
      have hk1 := innerFold_keys tl g.1 g.2 acc hg
      rw [ih _ (fun g2 hg2 => by
        rw [hk1]; exact hmem g2 (List.mem_cons_of_mem g hg2)), hk1]

/-- The keys of the all-zero base mapping are the vocabulary labels. -/
theorem dictKeys_base (l : List String) :
    dictKeys (l.map (fun e => (e, (0 : ℚ)))) = l := by
  induction l with
  | nil => rfl
  | cons e rest ih => simp [dictKeys] at ih ⊢; exact ih

/-- The scored dict is keyed by exactly the 18 vocabulary labels. -/
theorem fallbackScores_keys (text : String) :
    dictKeys (fallbackScores text) = primaryEmotions := by
  simp only [fallbackScores]
  rw [outerFold_keys, dictKeys_base]
  intro g hg
  rw [dictKeys_base]
  have hall : ∀ g ∈ emotionKeywords, g.1 ∈ primaryEmotions := by decide
  exact hall g hg

/-- In a dict with distinct keys, a stored entry's value is what lookup at
its key returns. -/
theorem getD_of_mem (a : List (String × ℚ)) (p : String × ℚ)
    (hnd : (dictKeys a).Nodup) (hp : p ∈ a) : dictGetD a p.1 0 = p.2 := by
  induction a with
  | nil => simp at hp
  | cons hd rest ih =>
      obtain ⟨k', v'⟩ := hd
      simp only [dictKeys, List.map_cons, List.nodup_cons] at hnd
      rcases List.mem_cons.mp hp with heq | hmem
      · rw [heq]
        simp [dictGetD_cons]
      · have hk : p.1 ∈ dictKeys rest := List.mem_map.mpr ⟨p, hmem, rfl⟩
        have hne : k' ≠ p.1 := fun h => hnd.1 (h ▸ hk)
        rw [dictGetD_cons, if_neg hne]
        exact ih hnd.2 hmem

/-- A key with a non-default lookup value is stored with that value. -/
theorem mem_of_getD_ne (a : List (String × ℚ)) (k : String)
    (h : dictGetD a k 0 ≠ 0) : (k, dictGetD a k 0) ∈ a := by
  induction a with
  | nil => simp [dictGetD] at h
  | cons hd rest ih =>
      obtain ⟨k', v'⟩ := hd
      by_cases h1 : k' = k
      · rw [dictGetD_cons, if_pos h1]
        rw [← h1]
        exact List.mem_cons_self _ _
      · rw [dictGetD_cons, if_neg h1] at h ⊢
        exact List.mem_cons_of_mem _ (ih h)

/-- The final emotions mapping is keyed by exactly the vocabulary labels. -/
theorem fallback_emotions_keys (text : String) :
    dictKeys (fallbackEmotionAnalysis text).emotions = primaryEmotions := by
  simp only [fallbackEmotionAnalysis]
  split
  · dsimp only
    rw [dictKeys_dictSet_mem, fallbackScores_keys]
    rw [fallbackScores_keys]
    decide
  · dsimp only
    exact fallbackScores_keys text

/-- Pointwise bounds on the final emotions mapping: the `contentment`
default 0.5 or a keyword score. -/
theorem fallback_emotions_getD_bounds (text : String) (q : String) :
    0 ≤ dictGetD (fallbackEmotionAnalysis text).emotions q 0 ∧
    dictGetD (fallbackEmotionAnalysis text).emotions q 0 ≤ 21/10 := by
  simp only [fallbackEmotionAnalysis]
  split
  · dsimp only
    rw [dictGetD_dictSet]
    by_cases h : ("contentment" : String) = q
    · rw [if_pos h]; norm_num
    · rw [if_neg h]; exact fallbackScores_getD_bounds text q
  · dsimp only
    exact fallbackScores_getD_bounds text q

/-- C8 counterexample: fallback scores are NOT within [0,1] for every input
text — four matched joy keywords give the score 1.2. -/
theorem c8_claim_false :
    ¬ (∀ text : String, ∀ p ∈ (fallbackEmotionAnalysis text).emotions,
        0 ≤ p.2 ∧ p.2 ≤ 1) := by
  intro h
  have hcount : List.countP
      (fun kw => containsKeyword (pyLower "happy joy excited great") kw)
      ["happy", "joy", "excited", "great", "awesome", "wonderful",
       "amazing"] = 4 := by decide
  have hval : dictGetD (fallbackScores "happy joy excited great") "joy" 0
      = 6/5 := by
    rw [fallbackScores_getD]
    simp only [emotionKeywords, List.map_cons, List.map_nil, List.sum_cons,
      List.sum_nil, groupContribution]
    rw [if_true, if_neg (by decide), if_neg (by decide),
      if_neg (by decide), if_neg (by decide), if_neg (by decide), hcount]
    norm_num
  have hval2 : dictGetD
      (fallbackEmotionAnalysis "happy joy excited great").emotions "joy" 0
      = 6/5 := by
    simp only [fallbackEmotionAnalysis]
    split
    · dsimp only
      rw [dictGetD_dictSet, if_neg (by decide), hval]
    · dsimp only
      exact hval
  have hmem := mem_of_getD_ne
    (fallbackEmotionAnalysis "happy joy excited great").emotions "joy"
    (by rw [hval2]; norm_num)
  rw [hval2] at hmem
  have hb := (h _ _ hmem).2
  norm_num at hb

/-- C8 amended: every emotion score the fallback analyzer produces is
nonnegative and at most 2.1 (= 0.3 × the 7 keywords of the largest lexicon
group); the scores are not clamped to [0,1] and exceed 1 as soon as four
keywords of one group match. -/
theorem c8_fallback_scores_bounded (text : String) :
    ∀ p ∈ (fallbackEmotionAnalysis text).emotions,
      0 ≤ p.2 ∧ p.2 ≤ 21/10 := by
  intro p hp
  have hnd : (dictKeys (fallbackEmotionAnalysis text).emotions).Nodup := by
    rw [fallback_emotions_keys]
    decide
  have hged := getD_of_mem _ p hnd hp
  rw [← hged]
  exact fallback_emotions_getD_bounds text p.1

/-- C8 witness: on a text matching no keyword, the joy score 0 is stored and
within the amended bounds. -/
theorem c8_fallback_scores_bounded_witness :
    (("joy", (0 : ℚ)) ∈ (fallbackEmotionAnalysis "hi").emotions) ∧
    (0 ≤ (0 : ℚ) ∧ (0 : ℚ) ≤ 21/10) := by
  have hmem : ("joy", (0 : ℚ)) ∈ (fallbackEmotionAnalysis "hi").emotions := by
    decide
  exact ⟨hmem, c8_fallback_scores_bounded "hi" ("joy", (0 : ℚ)) hmem⟩

/-! ## PersonalityProfile -/

/-- Modelled from the spec: the `PersonalityProfile` class with its
`update_from_emotion` method is imported by the tests from
`src.conversation_manager` but is missing from the repository's sources;
this data model follows spec section 4.2 (five traits starting at the 0.5
midpoint, an update counter). -/
structure PersonalityProfile where
  openness : ℚ
  emotional_expressivity : ℚ
  humor_appreciation : ℚ
  support_seeking : ℚ
  conversation_depth : ℚ
  update_count : Nat
  deriving Repr, DecidableEq

/-- The session-start profile: every trait at the 0.5 midpoint. -/
def initProfile : PersonalityProfile := ⟨1/2, 1/2, 1/2, 1/2, 1/2, 0⟩

/-- Clamp a trait to [0,1]. -/
def clamp01 (x : ℚ) : ℚ := max 0 (min 1 x)

/-- Modelled from the spec: `update_from_emotion` — increment the counter,
compute the harmonically decaying learning rate `min(0.1, 1/count)`, bump
each trait whose threshold fires, clamp the adjusted traits to [0,1];
`openness` is deliberately not updated. -/
def updateFromEmotion (p : PersonalityProfile) (r : EmotionResult)
    (engagement : ℚ) : PersonalityProfile :=
  let count := p.update_count + 1
  let lr : ℚ := min (1/10) (1 / (count : ℚ))
  let ee := if 3/5 < r.confidence
            then p.emotional_expressivity + lr * (2/10)
            else p.emotional_expressivity
  let ha := if 3/10 < dictGetD r.emotions "amusement" 0
            then p.humor_appreciation + lr * (3/10)
            else p.humor_appreciation
  let negSum := dictGetD r.emotions "sadness" 0 + dictGetD r.emotions "fear" 0
    + dictGetD r.emotions "anger" 0 + dictGetD r.emotions "disappointment" 0
    + dictGetD r.emotions "shame" 0
  let ss := if 4/10 < negSum
            then p.support_seeking + lr * (2/10)
            else p.support_seeking
  let cd := if 7/10 < engagement
            then p.conversation_depth + lr * (1/10)
            else p.conversation_depth
  { openness := p.openness,
    emotional_expressivity := clamp01 ee,
    humor_appreciation := clamp01 ha,
    support_seeking := clamp01 ss,
    conversation_depth := clamp01 cd,
    update_count := count }

/-- Clamped values are within [0,1]. -/
theorem clamp01_mem (x : ℚ) : 0 ≤ clamp01 x ∧ clamp01 x ≤ 1 := by
  constructor
  · exact le_max_left 0 _
  · simp only [clamp01, max_le_iff]
    exact ⟨by norm_num, min_le_left 1 x⟩

/-- C9: from any profile whose traits are within [0,1], one
`update_from_emotion` call, for every record and engagement value, leaves
every trait within [0,1] and increments `update_count` by exactly one,
whichever threshold conditions fire. -/
theorem c9_update_from_emotion_invariants (p : PersonalityProfile)
    (hopen : 0 ≤ p.openness ∧ p.openness ≤ 1)
    (r : EmotionResult) (engagement : ℚ) :
    (0 ≤ (updateFromEmotion p r engagement).openness ∧
      (updateFromEmotion p r engagement).openness ≤ 1) ∧
    (0 ≤ (updateFromEmotion p r engagement).emotional_expressivity ∧
      (updateFromEmotion p r engagement).emotional_expressivity ≤ 1) ∧
    (0 ≤ (updateFromEmotion p r engagement).humor_appreciation ∧
      (updateFromEmotion p r engagement).humor_appreciation ≤ 1) ∧
    (0 ≤ (updateFromEmotion p r engagement).support_seeking ∧
      (updateFromEmotion p r engagement).support_seeking ≤ 1) ∧
    (0 ≤ (updateFromEmotion p r engagement).conversation_depth ∧
      (updateFromEmotion p r engagement).conversation_depth ≤ 1) ∧
    (updateFromEmotion p r engagement).update_count
      = p.update_count + 1 := by
  refine ⟨hopen, clamp01_mem _, clamp01_mem _, clamp01_mem _,
    clamp01_mem _, rfl⟩

/-- C9 witness: a first update on the fresh profile with a confident joyful
record. -/
theorem c9_update_from_emotion_invariants_witness :
    (0 ≤ initProfile.openness ∧ initProfile.openness ≤ 1) ∧
    (updateFromEmotion initProfile
        ⟨[("joy", (4:ℚ)/5)], "joy", 4/5, 0, "w"⟩ (4/5)).update_count
      = initProfile.update_count + 1 := by
  have h := c9_update_from_emotion_invariants initProfile
    (by constructor <;> norm_num [initProfile])
    ⟨[("joy", (4:ℚ)/5)], "joy", 4/5, 0, "w"⟩ (4/5)
  exact ⟨by constructor <;> norm_num [initProfile], h.2.2.2.2.2⟩

/-! ## Method shadowing in `EmotionAwareResponseGenerator`
(`src/response_generator.py`) -/

/-- The method definitions of the class body in source order, keyed by name
with the line of each `def`.  Python executes a class body top to bottom, so
a later `def` overwrites an earlier one of the same name in the class dict. -/
def emotionAwareClassBody : List (String × Nat) :=
  [("__init__", 35), ("load_response_strategies", 45),
   ("_default_strategies", 57), ("generate_response", 82),
   ("_determine_response_strategy", 118), ("_build_system_prompt", 131),
   ("_build_message_history", 185), ("_get_temperature_for_strategy", 201),
   ("_format_emotion_trend", 211), ("_fallback_response", 219),
   ("generate_response", 249), ("format_messages_for_api", 293)]

/-- Python class-dict construction: the last binding of a name wins. -/
def classLookup (body : List (String × Nat)) (name : String) : Option Nat :=
  body.foldl (fun acc entry => if entry.1 = name then some entry.2 else acc)
    none

/-- Python exception kinds relevant to the surviving method. -/
inductive PyExn where
  | typeError
  | apiFailure
  deriving Repr, DecidableEq

/-- The parameters of `_build_system_prompt(self, strategy, context)`
besides `self` (line 131). -/
def buildSystemPromptArity : Nat := 2

/-- Calling a Python method raises `TypeError` before its body runs when the
number of positional arguments does not match its parameters. -/
def callMethod (arity given : Nat) (result : String) : Except PyExn String :=
  if given = arity then .ok result else .error .typeError

/-- The fixed fallback line of the surviving `generate_response`. -/
def genericFallbackLine : String :=
  "I\x27m having trouble generating a response right now. Could you try rephrasing your question?"

/-- The body of the surviving `generate_response` (line 249): inside the
`try`, build the system prompt via `self._build_system_prompt(emotion_context)`
— ONE argument — then call the chat API; any exception is caught by the
handler, which returns the fixed fallback line.  The Bool records whether
the language-model call was reached. -/
def generateResponseV2 (messages : List (String × String))
    (emotionContext : Option (List (String × ℚ)))
    (temperature : ℚ) (maxTokens : Nat)
    (apiResult : Except PyExn String) : String × Bool :=
  match callMethod buildSystemPromptArity 1 "prompt" with
  | .error _ => (genericFallbackLine, false)
  | .ok _ =>
      match apiResult with
      | .ok response => (response, true)
      | .error _ => (genericFallbackLine, true)

/-- C10: the second `generate_response` definition (line 249) shadows the
first (line 82) in the class dict, and the surviving method is the constant
function returning the fixed fallback line: its one-argument call of the
two-parameter `_build_system_prompt` raises `TypeError`, the handler
catches it, and the language-model call is never reached. -/
theorem c10_generate_response_shadowed_constant :
    classLookup emotionAwareClassBody "generate_response" = some 249 ∧
    (∀ (messages : List (String × String))
       (emotionContext : Option (List (String × ℚ)))
       (temperature : ℚ) (maxTokens : Nat)
       (apiResult : Except PyExn String),
       generateResponseV2 messages emotionContext temperature maxTokens
         apiResult = (genericFallbackLine, false)) := by
  constructor
  · decide
  · intro messages emotionContext temperature maxTokens apiResult
    rfl

end EmotionAI

namespace EmotionAI

/-- A sample record with a given dominant emotion and confidence, as used by
the spec scenarios (scores of the other labels do not enter the selector). -/
def sampleRecord (dom : String) (conf : ℚ) : EmotionResult :=
  ⟨[(dom, conf)], dom, conf, 0, "sample"⟩

/-- C1: strategy selection for the three scenario records of the spec; the
code returns the table KEY (not the approach tag), so the temperature lookup
misses and falls through to 0.7. -/
theorem c1_strategy_selection_eval :
    determineResponseStrategy defaultStrategies (sampleRecord "joy" (3/4))
      = "high_positive" ∧
    getTemperatureForStrategy
      (determineResponseStrategy defaultStrategies (sampleRecord "joy" (3/4)))
      = 7/10 ∧
    determineResponseStrategy defaultStrategies (sampleRecord "sadness" (1/2))
      = "negative" ∧
    getTemperatureForStrategy
      (determineResponseStrategy defaultStrategies (sampleRecord "sadness" (1/2)))
      = 7/10 ∧
    determineResponseStrategy defaultStrategies (sampleRecord "doubt" (1/10))
      = "balanced_engagement" ∧
    getTemperatureForStrategy
      (determineResponseStrategy defaultStrategies (sampleRecord "doubt" (1/10)))
      = 7/10 ∧
    ("high_positive", (7:ℚ)/10) ≠ ("amplify_positive", (8:ℚ)/10) := by
  have h1 : determineResponseStrategy defaultStrategies (sampleRecord "joy" (3/4))
      = "high_positive" := by
    simp [determineResponseStrategy, defaultStrategies, sampleRecord,
      show ((7:ℚ)/10 ≤ 3/4) = True from by norm_num]
  have h2 : determineResponseStrategy defaultStrategies (sampleRecord "sadness" (1/2))
      = "negative" := by
    simp [determineResponseStrategy, defaultStrategies, sampleRecord,
      show ((3:ℚ)/10 ≤ 2⁻¹) = True from by norm_num,
      show ((4:ℚ)/10 ≤ 2⁻¹) = True from by norm_num,
      show ((7:ℚ)/10 ≤ 2⁻¹) = False from by norm_num]
  have h3 : determineResponseStrategy defaultStrategies (sampleRecord "doubt" (1/10))
      = "balanced_engagement" := by
    simp [determineResponseStrategy, defaultStrategies, sampleRecord,
      show ((2:ℚ)/10 ≤ 10⁻¹) = False from by norm_num]
  refine ⟨h1, ?_, h2, ?_, h3, ?_, ?_⟩
  · rw [h1]; simp [getTemperatureForStrategy, dictGetD]
  · rw [h2]; simp [getTemperatureForStrategy, dictGetD]
  · rw [h3]; simp [getTemperatureForStrategy, dictGetD]
  · simp

end EmotionAI
